import Mathlib

set_option maxHeartbeats 1000000
set_option linter.unusedVariables false

deriving instance DecidableEq for Except

/-!
Verification development for the cache-simulation engine and its top-level
assembly in the spike front-end (`src/spike_main/spike.cc`).

The assembly layer (option flags, `set_miss_handler` wiring and
`register_memtracer` registration in `main`) is embedded directly from
`spike.cc`.  The cache engine itself (`cachesim`) is not part of the visible
sources, so its data model and `access` algorithm are modelled from the
specification (sections 3, 4.1-4.4 and 7 of the spec), as marked on each
definition.
-/

/-- Modelled from the spec: the kind of a memory-trace event
(`MemTraceEvent.kind : fetch|load|store`, spec section 3). -/
inductive AccessKind where
  | fetch
  | load
  | store
deriving DecidableEq, Repr

/-- Modelled from the spec: `MemTraceEvent = {address, size, kind}`
(spec section 3); addresses and sizes are byte quantities. -/
structure MemTraceEvent where
  address : Nat
  size : Nat
  kind : AccessKind
deriving DecidableEq, Repr

/-- Modelled from the spec: `CacheLine = {valid, dirty, tag}` (spec section 3). -/
structure CacheLine where
  valid : Bool
  dirty : Bool
  tag : Nat
deriving DecidableEq, Repr

/-- Modelled from the spec: `CacheConfig = {sets, ways, block_bytes}`
(spec section 3, label omitted as it carries no behaviour). -/
structure CacheConfig where
  sets : Nat
  ways : Nat
  blockBytes : Nat
deriving DecidableEq, Repr

/-- Modelled from the spec: `CacheInstance` owns S sets of W lines (each set a
list ordered most-recently-used first, which is the set's recency ordering),
the four running counters, and the optional miss-handler reference (spec
section 3).  The handler's identity lives in the chaining functions below;
the instance itself records only whether a handler is wired. -/
structure CacheInstance where
  config : CacheConfig
  sets : List (List CacheLine)
  accesses : Nat
  hits : Nat
  misses : Nat
  writebacks : Nat
  hasMissHandler : Bool
deriving DecidableEq, Repr

/-- Modelled from the spec: `block_number = block_base / B` where
`block_base = a - (a mod B)` (spec section 4.2); in exact Nat arithmetic this
is `a / B`. -/
def blockNumber (cfg : CacheConfig) (a : Nat) : Nat :=
  a / cfg.blockBytes

/-- Modelled from the spec: `set_index = block_number mod S` (spec section 4.2). -/
def setIndexOf (cfg : CacheConfig) (a : Nat) : Nat :=
  blockNumber cfg a % cfg.sets

/-- Modelled from the spec: `tag = block_number / S` (spec section 4.2). -/
def tagOf (cfg : CacheConfig) (a : Nat) : Nat :=
  blockNumber cfg a / cfg.sets

/-- Modelled from the spec: a line participates in a lookup when it is valid
and its tag equals the probed tag (spec section 4.3 step 3). -/
def lineMatches (t : Nat) (l : CacheLine) : Bool :=
  l.valid && l.tag == t

/-- Modelled from the spec: scan the W lines of the selected set for a valid
line with matching tag (spec section 4.3 step 3). -/
def setLookup (t : Nat) (lines : List CacheLine) : Bool :=
  lines.any (lineMatches t)

/-- Modelled from the spec: on a hit, move the matched line to the
most-recently-used position (list head) and, for a store, mark it dirty
(spec section 4.3 step 4). -/
def setTouch (t : Nat) (isStore : Bool) (lines : List CacheLine) : List CacheLine :=
  match lines.find? (lineMatches t) with
  | some l => { l with dirty := l.dirty || isStore } :: lines.eraseP (lineMatches t)
  | none => lines

/-- Modelled from the spec: on a miss, evict the least-recently-used line
(list tail) and install the new block most-recently-used (spec section 4.3
step 5). -/
def setInstall (t : Nat) (isStore : Bool) (lines : List CacheLine) : List CacheLine :=
  ⟨true, isStore, t⟩ :: lines.dropLast

/-- Modelled from the spec: the victim of a miss is the least-recently-used
line of the set, i.e. the tail of the recency list (spec section 4.3 step 5). -/
def victimOf (lines : List CacheLine) : CacheLine :=
  lines.getLastD ⟨false, false, 0⟩

/-- Modelled from the spec: a victim's reconstructed block address, inverting
the decomposition `tag = bn / S`, `idx = bn mod S`, `base = bn * B`
(spec sections 4.2 and 4.3 step 5). -/
def victimAddr (cfg : CacheConfig) (idx tag : Nat) : Nat :=
  (tag * cfg.sets + idx) * cfg.blockBytes

/-- Modelled from the spec: the single runtime error kind, a contract breach
by the calling collaborator (spec section 7). -/
inductive AccessError where
  | invalidAccess
deriving DecidableEq, Repr

/-- Result of one `access` call: the updated instance, the hit flag, and the
accesses forwarded to the miss handler (writeback first, then the original
missing access), empty when no handler is wired. -/
structure AccessResult where
  inst : CacheInstance
  hit : Bool
  forwarded : List MemTraceEvent
deriving DecidableEq, Repr

/-- Modelled from the spec: the `access` contract — `size ≤ B` and
`offset + size ≤ B` (spec section 4.3). -/
def inContract (cfg : CacheConfig) (e : MemTraceEvent) : Bool :=
  decide (e.size ≤ cfg.blockBytes) &&
    decide (e.address % cfg.blockBytes + e.size ≤ cfg.blockBytes)

/-- True exactly for store-kind events. -/
def AccessKind.isStore : AccessKind → Bool
  | .store => true
  | _ => false

/-- Modelled from the spec: `access(address, size, kind)` (spec section 4.3).
Contract violations raise `InvalidAccess`; otherwise the set selected by the
decomposed index is scanned, counters and recency state are updated, and on a
miss the dirty-victim writeback (kind store, victim block address, size B)
followed by the original access are forwarded to the miss handler if one is
wired. -/
def CacheInstance.access (c : CacheInstance) (e : MemTraceEvent) :
    Except AccessError AccessResult :=
  if inContract c.config e then
    let idx := setIndexOf c.config e.address
    let t := tagOf c.config e.address
    let lines := c.sets.getD idx []
    let isStore := e.kind.isStore
    if setLookup t lines then
      Except.ok ⟨{ c with
          sets := c.sets.set idx (setTouch t isStore lines),
          accesses := c.accesses + 1,
          hits := c.hits + 1 }, true, []⟩
    else
      let victim := victimOf lines
      let dirtyEvict := victim.valid && victim.dirty
      let wb : List MemTraceEvent :=
        if dirtyEvict then
          [⟨victimAddr c.config idx victim.tag, c.config.blockBytes, AccessKind.store⟩]
        else []
      Except.ok ⟨{ c with
          sets := c.sets.set idx (setInstall t isStore lines),
          accesses := c.accesses + 1,
          misses := c.misses + 1,
          writebacks := c.writebacks + (if dirtyEvict then 1 else 0) },
        false,
        if c.hasMissHandler then wb ++ [e] else []⟩
  else
    Except.error AccessError.invalidAccess

/-- Totalised single step: a contract-violating access is fatal in the real
system; here it leaves the instance unchanged so that sequences fold. -/
def stepA (c : CacheInstance) (e : MemTraceEvent) : CacheInstance :=
  match c.access e with
  | .ok r => r.inst
  | .error _ => c

/-- Fold a whole access sequence over one instance. -/
def runA (c : CacheInstance) (es : List MemTraceEvent) : CacheInstance :=
  es.foldl stepA c

/-- An invalid line, as produced at construction. -/
def freshLine : CacheLine :=
  ⟨false, false, 0⟩

/-- Modelled from the spec: a freshly constructed instance has S sets of W
all-invalid lines and zeroed counters (spec section 4.1). -/
def freshInstance (S W B : Nat) : CacheInstance :=
  ⟨⟨S, W, B⟩, List.replicate S (List.replicate W freshLine), 0, 0, 0, 0, false⟩

/-- Modelled from the spec: `set_miss_handler(next)` wires the (unique, shared
L2) next-level instance; on the instance itself this records that a handler
exists, the handler's identity being held by the assembly (spec section 4.4). -/
def CacheInstance.set_miss_handler (c : CacheInstance) : CacheInstance :=
  { c with hasMissHandler := true }

/-- One step of an L1-to-L2 chain: the event is given to the first-level
instance and every forwarded access is then replayed, in order, on the
second-level instance (spec section 4.3 steps 5-6). -/
def chainStep (p : CacheInstance × CacheInstance) (e : MemTraceEvent) :
    CacheInstance × CacheInstance :=
  match p.1.access e with
  | .ok r => (r.inst, runA p.2 r.forwarded)
  | .error _ => p

/-- Fold an access sequence over an L1-to-L2 chain. -/
def runChain (p : CacheInstance × CacheInstance) (es : List MemTraceEvent) :
    CacheInstance × CacheInstance :=
  es.foldl chainStep p

/-- Modelled from the spec: the field a power-of-two configuration error
points at (spec section 4.1). -/
inductive SpecField where
  | sets
  | ways
  | blockBytes
deriving DecidableEq, Repr

/-- Modelled from the spec: configuration-time errors (spec sections 4.1, 7). -/
inductive ConfigError where
  | malformedSpec
  | notPowerOfTwo (field : SpecField)
deriving DecidableEq, Repr

/-- Decidable power-of-two test (any power of two `2^k ≤ n` has `k ≤ n`). -/
def isPow2 (n : Nat) : Bool :=
  decide (∃ k, k ≤ n ∧ n = 2 ^ k)

/-- Decimal digit characters `'0'..'9'` by code point. -/
def isDigitChar (c : Char) : Bool :=
  48 ≤ c.toNat && c.toNat ≤ 57

/-- Numeric value of a decimal digit character. -/
def digitVal (c : Char) : Nat :=
  c.toNat - 48

/-- Split a character list on `':'` separators; always returns one field more
than the number of separators, so `"a:b:c"` yields three fields. -/
def splitColon : List Char → List (List Char)
  | [] => [[]]
  | c :: cs =>
    if c = ':' then [] :: splitColon cs
    else
      match splitColon cs with
      | f :: r => (c :: f) :: r
      | [] => [[c]]

/-- Modelled from the spec: a field parses as a decimal number when it is a
nonempty string of decimal digits (spec section 4.1). -/
def parseField (cs : List Char) : Option Nat :=
  if !cs.isEmpty && cs.all isDigitChar then
    some (cs.foldl (fun a c => 10 * a + digitVal c) 0)
  else none

/-- Modelled from the spec: `construct("S:W:B", label)` parses three
`':'`-separated decimal fields (else `MalformedSpec`), requires S and B to be
powers of two (else `NotPowerOfTwo` naming the offending field, sets checked
first; W unconstrained), and yields the fresh instance (spec section 4.1). -/
def construct (cs : List Char) : Except ConfigError CacheInstance :=
  match splitColon cs with
  | [f1, f2, f3] =>
    match parseField f1, parseField f2, parseField f3 with
    | some S, some W, some B =>
      if !isPow2 S then Except.error (ConfigError.notPowerOfTwo SpecField.sets)
      else if !isPow2 B then Except.error (ConfigError.notPowerOfTwo SpecField.blockBytes)
      else Except.ok (freshInstance S W B)
    | _, _, _ => Except.error ConfigError.malformedSpec
  | _ => Except.error ConfigError.malformedSpec

/-- Decimal digit characters of `n`, most significant first, by fuel
recursion (`fuel` bounds the number of digits; empty for `n = 0`). -/
def renderNatAux : Nat → Nat → List Char
  | 0, _ => []
  | fuel + 1, n =>
    if n = 0 then []
    else renderNatAux fuel (n / 10) ++ [Char.ofNat (48 + n % 10)]

/-- Render a natural number as its decimal digit characters. -/
def renderNat (n : Nat) : List Char :=
  if n = 0 then [Char.ofNat 48] else renderNatAux n n

/-- The `"S:W:B"` configuration literal for the given geometry. -/
def specChars (S W B : Nat) : List Char :=
  renderNat S ++ ':' :: renderNat W ++ ':' :: renderNat B

/-- Identity of the at most three cache objects `main` ever constructs:
`ic` (line 134 of spike.cc), `dc` (line 135) and `l2` (line 136). -/
inductive CacheId where
  | icId
  | dcId
  | l2Id
deriving DecidableEq, Repr

/-- The command-line facts `main`'s assembly depends on: which of the three
cache options were given, and the processor count `-p`. -/
structure SpikeArgs where
  hasIc : Bool
  hasDc : Bool
  hasL2 : Bool
  nprocs : Nat
deriving DecidableEq, Repr

/-- The externally visible assembly actions of `main` after parsing:
`set_miss_handler` wiring, per-hart `register_memtracer` calls, and starting
the simulation (`s.run()`). -/
inductive AsmAction where
  | wire (target handler : CacheId)
  | register (hart : Nat) (tracer : CacheId)
  | runSim
deriving DecidableEq, Repr

/-- Registrations performed for hart `i` in the body of the loop at
spike.cc lines 176-181: the (single) `ic` object, then the (single) `dc`
object, each only when configured. -/
def hartRegs (a : SpikeArgs) (i : Nat) : List AsmAction :=
  (if a.hasIc then [AsmAction.register i CacheId.icId] else []) ++
    (if a.hasDc then [AsmAction.register i CacheId.dcId] else [])

/-- The assembly sequence of `main` (spike.cc lines 174-186): wire `ic` and
`dc` to `l2` when both ends exist, register the same `ic`/`dc` objects with
every hart's mmu, then run the simulation. -/
def mainActions (a : SpikeArgs) : List AsmAction :=
  (if a.hasIc && a.hasL2 then [AsmAction.wire CacheId.icId CacheId.l2Id] else []) ++
    (if a.hasDc && a.hasL2 then [AsmAction.wire CacheId.dcId CacheId.l2Id] else []) ++
    ((List.range a.nprocs).map (hartRegs a)).flatten ++
    [AsmAction.runSim]

/-- The tracer objects registered for hart `h`, in registration order. -/
def registeredTracers (acts : List AsmAction) (h : Nat) : List CacheId :=
  acts.filterMap (fun x =>
    match x with
    | AsmAction.register i t => if i = h then some t else none
    | _ => none)

/-- The tracer objects `main` registers for any single hart: the one `ic`
object then the one `dc` object, as configured. -/
def hartBase (a : SpikeArgs) : List CacheId :=
  (if a.hasIc then [CacheId.icId] else []) ++ (if a.hasDc then [CacheId.dcId] else [])

/-- True exactly for `set_miss_handler` wiring actions. -/
def isWire : AsmAction → Bool
  | .wire _ _ => true
  | _ => false

/-- True for wiring actions whose target is the given instance. -/
def isWireOf (c : CacheId) : AsmAction → Bool
  | .wire t _ => t == c
  | _ => false

/-- The state of the three cache objects during a simulated run. -/
structure SimState where
  ic : CacheInstance
  dc : CacheInstance
  l2 : CacheInstance
deriving DecidableEq, Repr

/-- Deliver one traced access to a first-level instance, replaying any
forwarded accesses on the shared second-level instance. -/
def deliver1 (l1 l2 : CacheInstance) (e : MemTraceEvent) :
    CacheInstance × CacheInstance :=
  match l1.access e with
  | .ok r => (r.inst, runA l2 r.forwarded)
  | .error _ => (l1, l2)

/-- Deliver one traced access to the named registered tracer. -/
def deliverTo (s : SimState) (t : CacheId) (e : MemTraceEvent) : SimState :=
  match t with
  | .icId => let p := deliver1 s.ic s.l2 e; ⟨p.1, s.dc, p.2⟩
  | .dcId => let p := deliver1 s.dc s.l2 e; ⟨s.ic, p.1, p.2⟩
  | .l2Id => ⟨s.ic, s.dc, stepA s.l2 e⟩

/-- Modelled from the spec: during the run each committed access of hart `h`
is reported once to each tracer registered for `h` (spec sections 4.5, 2);
the run loop itself (`sim_t::run`) is outside the visible sources. -/
def simStep (acts : List AsmAction) (s : SimState) (he : Nat × MemTraceEvent) :
    SimState :=
  (registeredTracers acts he.1).foldl (fun s t => deliverTo s t he.2) s

/-- Fold a whole trace of per-hart committed accesses over the run model. -/
def runSimModel (acts : List AsmAction) (s : SimState)
    (tr : List (Nat × MemTraceEvent)) : SimState :=
  tr.foldl (simStep acts) s

/-- Structural well-formedness: the instance really has S sets of W lines. -/
def WF (c : CacheInstance) : Prop :=
  c.sets.length = c.config.sets ∧ ∀ ls ∈ c.sets, ls.length = c.config.ways

instance (c : CacheInstance) : Decidable (WF c) := by
  unfold WF; infer_instance

/-- A valid line carrying tag `T` occurs among the `m` most recently used
lines of the set. -/
def hasValidTagIn (lines : List CacheLine) (T m : Nat) : Prop :=
  ∃ x ∈ lines.take m, x.valid = true ∧ x.tag = T

instance (lines : List CacheLine) (T m : Nat) : Decidable (hasValidTagIn lines T m) := by
  unfold hasValidTagIn; infer_instance

/-! Shape lemmas for one `access` call. -/

theorem access_error_of_not_contract (c : CacheInstance) (e : MemTraceEvent)
    (h : inContract c.config e = false) :
    c.access e = Except.error AccessError.invalidAccess := by
  unfold CacheInstance.access
  simp [h]

theorem access_hit_eq (c : CacheInstance) (e : MemTraceEvent)
    (h : inContract c.config e = true)
    (hl : setLookup (tagOf c.config e.address)
        (c.sets.getD (setIndexOf c.config e.address) []) = true) :
    c.access e = Except.ok ⟨{ c with
        sets := c.sets.set (setIndexOf c.config e.address)
          (setTouch (tagOf c.config e.address) e.kind.isStore
            (c.sets.getD (setIndexOf c.config e.address) [])),
        accesses := c.accesses + 1,
        hits := c.hits + 1 }, true, []⟩ := by
  unfold CacheInstance.access
  rw [List.getD_eq_getElem?_getD] at hl
  simp [h, hl, List.getD_eq_getElem?_getD]

theorem access_miss_eq (c : CacheInstance) (e : MemTraceEvent)
    (h : inContract c.config e = true)
    (hl : setLookup (tagOf c.config e.address)
        (c.sets.getD (setIndexOf c.config e.address) []) = false) :
    c.access e = Except.ok ⟨{ c with
        sets := c.sets.set (setIndexOf c.config e.address)
          (setInstall (tagOf c.config e.address) e.kind.isStore
            (c.sets.getD (setIndexOf c.config e.address) [])),
        accesses := c.accesses + 1,
        misses := c.misses + 1,
        writebacks := c.writebacks +
          (if (victimOf (c.sets.getD (setIndexOf c.config e.address) [])).valid
              && (victimOf (c.sets.getD (setIndexOf c.config e.address) [])).dirty
           then 1 else 0) },
      false,
      if c.hasMissHandler then
        (if (victimOf (c.sets.getD (setIndexOf c.config e.address) [])).valid
            && (victimOf (c.sets.getD (setIndexOf c.config e.address) [])).dirty
         then
          [⟨victimAddr c.config (setIndexOf c.config e.address)
              (victimOf (c.sets.getD (setIndexOf c.config e.address) [])).tag,
            c.config.blockBytes, AccessKind.store⟩]
         else []) ++ [e]
      else []⟩ := by
  unfold CacheInstance.access
  rw [List.getD_eq_getElem?_getD] at hl
  simp [h, hl, List.getD_eq_getElem?_getD]

theorem access_ok_contract (c : CacheInstance) (e : MemTraceEvent) (r : AccessResult)
    (h : c.access e = Except.ok r) : inContract c.config e = true := by
  by_cases hc : inContract c.config e
  · exact hc
  · rw [access_error_of_not_contract c e (by simpa using hc)] at h
    exact absurd h (by simp)

/-! Counter and configuration behaviour of a single step. -/

theorem stepA_config (c : CacheInstance) (e : MemTraceEvent) :
    (stepA c e).config = c.config := by
  unfold stepA
  by_cases h : inContract c.config e
  · by_cases hl : setLookup (tagOf c.config e.address)
        (c.sets.getD (setIndexOf c.config e.address) []) = true
    · rw [access_hit_eq c e h hl]
    · rw [access_miss_eq c e h (by simpa using hl)]
  · rw [access_error_of_not_contract c e (by simpa using h)]

theorem stepA_hasMissHandler (c : CacheInstance) (e : MemTraceEvent) :
    (stepA c e).hasMissHandler = c.hasMissHandler := by
  unfold stepA
  by_cases h : inContract c.config e
  · by_cases hl : setLookup (tagOf c.config e.address)
        (c.sets.getD (setIndexOf c.config e.address) []) = true
    · rw [access_hit_eq c e h hl]
    · rw [access_miss_eq c e h (by simpa using hl)]
  · rw [access_error_of_not_contract c e (by simpa using h)]

theorem stepA_counters (c : CacheInstance) (e : MemTraceEvent) :
    ((stepA c e).hits + (stepA c e).misses = c.hits + c.misses + ((stepA c e).accesses - c.accesses))
    ∧ c.accesses ≤ (stepA c e).accesses
    ∧ c.hits ≤ (stepA c e).hits
    ∧ c.misses ≤ (stepA c e).misses
    ∧ c.writebacks ≤ (stepA c e).writebacks
    ∧ (stepA c e).accesses ≤ c.accesses + 1 := by
  unfold stepA
  by_cases h : inContract c.config e
  · by_cases hl : setLookup (tagOf c.config e.address)
        (c.sets.getD (setIndexOf c.config e.address) []) = true
    · rw [access_hit_eq c e h hl]
      simp
      omega
    · rw [access_miss_eq c e h (by simpa using hl)]
      simp
      omega
  · rw [access_error_of_not_contract c e (by simpa using h)]
    simp

theorem runA_append (c : CacheInstance) (es es' : List MemTraceEvent) :
    runA c (es ++ es') = runA (runA c es) es' := by
  unfold runA
  exact List.foldl_append stepA c es es'

theorem runA_config (c : CacheInstance) (es : List MemTraceEvent) :
    (runA c es).config = c.config := by
  induction es generalizing c with
  | nil => rfl
  | cons e es ih =>
    show (runA (stepA c e) es).config = c.config
    rw [ih, stepA_config]

theorem runA_inv (c : CacheInstance) (es : List MemTraceEvent)
    (h : c.hits + c.misses = c.accesses) :
    (runA c es).hits + (runA c es).misses = (runA c es).accesses := by
  induction es generalizing c with
  | nil => exact h
  | cons e es ih =>
    show (runA (stepA c e) es).hits + (runA (stepA c e) es).misses
        = (runA (stepA c e) es).accesses
    refine ih (stepA c e) ?_
    have hs := stepA_counters c e
    omega

theorem runA_mono (c : CacheInstance) (es : List MemTraceEvent) :
    c.accesses ≤ (runA c es).accesses
    ∧ c.hits ≤ (runA c es).hits
    ∧ c.misses ≤ (runA c es).misses
    ∧ c.writebacks ≤ (runA c es).writebacks := by
  induction es generalizing c with
  | nil => exact ⟨le_refl _, le_refl _, le_refl _, le_refl _⟩
  | cons e es ih =>
    have h1 := stepA_counters c e
    have h2 := ih (stepA c e)
    show c.accesses ≤ (runA (stepA c e) es).accesses
        ∧ c.hits ≤ (runA (stepA c e) es).hits
        ∧ c.misses ≤ (runA (stepA c e) es).misses
        ∧ c.writebacks ≤ (runA (stepA c e) es).writebacks
    omega

/-- C2: on any instance freshly constructed with geometry S:W:B, after every
prefix of every access sequence the counters satisfy
`hits + misses = accesses`, and every one of the four counters is
monotonically non-decreasing as the sequence is extended. -/
theorem counters_accounting_invariant :
    (∀ S W B es, (runA (freshInstance S W B) es).hits
        + (runA (freshInstance S W B) es).misses
        = (runA (freshInstance S W B) es).accesses)
    ∧ (∀ S W B es es',
        (runA (freshInstance S W B) es).accesses
          ≤ (runA (freshInstance S W B) (es ++ es')).accesses
        ∧ (runA (freshInstance S W B) es).hits
          ≤ (runA (freshInstance S W B) (es ++ es')).hits
        ∧ (runA (freshInstance S W B) es).misses
          ≤ (runA (freshInstance S W B) (es ++ es')).misses
        ∧ (runA (freshInstance S W B) es).writebacks
          ≤ (runA (freshInstance S W B) (es ++ es')).writebacks) := by
  constructor
  · intro S W B es
    exact runA_inv _ es rfl
  · intro S W B es es'
    rw [runA_append]
    exact runA_mono _ es'

/-- C8: `access` raises `InvalidAccess` exactly when `size > B` or
`offset + size > B`; in particular a size-8 access at offset 60 of a 64-byte
block raises `InvalidAccess`, and an in-contract access never raises it and
is processed exactly once (the accesses counter advances by exactly one, so
the access is neither truncated, split, nor dropped). -/
theorem access_contract_enforcement (c : CacheInstance) (e : MemTraceEvent) :
    (c.access e = Except.error AccessError.invalidAccess ↔
      (c.config.blockBytes < e.size
        ∨ c.config.blockBytes < e.address % c.config.blockBytes + e.size))
    ∧ (c.config.blockBytes = 64 → e.address % 64 = 60 → e.size = 8 →
        c.access e = Except.error AccessError.invalidAccess)
    ∧ (inContract c.config e = true →
        ∃ r, c.access e = Except.ok r ∧ r.inst.accesses = c.accesses + 1) := by
  refine ⟨?_, ?_, ?_⟩
  · constructor
    · intro herr
      by_cases h : inContract c.config e
      · exfalso
        by_cases hl : setLookup (tagOf c.config e.address)
            (c.sets.getD (setIndexOf c.config e.address) []) = true
        · rw [access_hit_eq c e h hl] at herr
          exact absurd herr (by simp)
        · rw [access_miss_eq c e h (by simpa using hl)] at herr
          exact absurd herr (by simp)
      · unfold inContract at h
        simp at h
        omega
    · intro hout
      apply access_error_of_not_contract
      unfold inContract
      simp
      omega
  · intro hB hoff hsz
    apply access_error_of_not_contract
    unfold inContract
    rw [hB, hoff, hsz]
    simp
  · intro h
    by_cases hl : setLookup (tagOf c.config e.address)
        (c.sets.getD (setIndexOf c.config e.address) []) = true
    · exact ⟨_, access_hit_eq c e h hl, rfl⟩
    · exact ⟨_, access_miss_eq c e h (by simpa using hl), rfl⟩

/-- C8 witness: on a 64-byte-block instance, a size-8 access at offset 60
raises `InvalidAccess`, and the in-contract re-aligned access succeeds. -/
theorem access_contract_enforcement_witness :
    ((freshInstance 1 1 64).config.blockBytes = 64 ∧ (60 : Nat) % 64 = 60
      ∧ (freshInstance 1 1 64).access ⟨60, 8, AccessKind.load⟩
          = Except.error AccessError.invalidAccess)
    ∧ (inContract (freshInstance 1 1 64).config ⟨0, 8, AccessKind.load⟩ = true
      ∧ ∃ r, (freshInstance 1 1 64).access ⟨0, 8, AccessKind.load⟩ = Except.ok r
          ∧ r.inst.accesses = (freshInstance 1 1 64).accesses + 1) :=
  ⟨⟨rfl, rfl,
    (access_contract_enforcement (freshInstance 1 1 64) ⟨60, 8, AccessKind.load⟩).2.1
      rfl rfl rfl⟩,
   ⟨rfl,
    (access_contract_enforcement (freshInstance 1 1 64) ⟨0, 8, AccessKind.load⟩).2.2
      rfl⟩⟩

/-! Arithmetic facts about the decomposition and power-of-two geometries. -/

theorem isPow2_iff (n : Nat) : isPow2 n = true ↔ ∃ k, n = 2 ^ k := by
  unfold isPow2
  rw [decide_eq_true_iff]
  constructor
  · rintro ⟨k, _, hk⟩
    exact ⟨k, hk⟩
  · rintro ⟨k, hk⟩
    refine ⟨k, ?_, hk⟩
    calc k ≤ 2 ^ k := Nat.le_of_lt (Nat.lt_two_pow k)
    _ = n := hk.symm

theorem isPow2_pos (n : Nat) (h : isPow2 n = true) : 0 < n := by
  obtain ⟨k, hk⟩ := (isPow2_iff n).1 h
  subst hk
  exact Nat.pos_pow_of_pos k (by omega)

theorem sub_mod_div (a B : Nat) (hB : 0 < B) : (a - a % B) / B = a / B := by
  have h := Nat.div_add_mod a B
  have h2 : a - a % B = B * (a / B) := by omega
  rw [h2, Nat.mul_div_cancel_left _ hB]

theorem setLookup_iff (t : Nat) (lines : List CacheLine) :
    setLookup t lines = true ↔ ∃ x ∈ lines, x.valid = true ∧ x.tag = t := by
  unfold setLookup
  rw [List.any_eq_true]
  constructor
  · rintro ⟨x, hx, hm⟩
    unfold lineMatches at hm
    rw [Bool.and_eq_true, beq_iff_eq] at hm
    exact ⟨x, hx, hm.1, hm.2⟩
  · rintro ⟨x, hx, hv, ht⟩
    refine ⟨x, hx, ?_⟩
    unfold lineMatches
    rw [Bool.and_eq_true, beq_iff_eq]
    exact ⟨hv, ht⟩

/-- C3: for every geometry with power-of-two S and B, the address
decomposition computed by the engine agrees exactly with the chain
`offset = a mod B`, `block_base = a - offset`, `block_number = block_base / B`,
`set_index = block_number mod S`, `tag = block_number / S`, and every
successful access decides hit/miss precisely by tag equality among the valid
lines of the selected set. -/
theorem address_decomposition_exact (cfg : CacheConfig)
    (hS : isPow2 cfg.sets = true) (hB : isPow2 cfg.blockBytes = true) (a : Nat) :
    blockNumber cfg a = (a - a % cfg.blockBytes) / cfg.blockBytes
    ∧ setIndexOf cfg a = ((a - a % cfg.blockBytes) / cfg.blockBytes) % cfg.sets
    ∧ tagOf cfg a = ((a - a % cfg.blockBytes) / cfg.blockBytes) / cfg.sets
    ∧ (∀ (c : CacheInstance) (e : MemTraceEvent) (r : AccessResult),
        c.config = cfg → c.access e = Except.ok r →
        (r.hit = true ↔ ∃ x ∈ c.sets.getD (setIndexOf cfg e.address) [],
          x.valid = true ∧ x.tag = tagOf cfg e.address)) := by
  have hBpos := isPow2_pos _ hB
  have hdiv := sub_mod_div a cfg.blockBytes hBpos
  refine ⟨by unfold blockNumber; omega,
    by unfold setIndexOf blockNumber; rw [hdiv],
    by unfold tagOf blockNumber; rw [hdiv], ?_⟩
  intro c e r hcfg hacc
  subst hcfg
  have hc := access_ok_contract c e r hacc
  by_cases hl : setLookup (tagOf c.config e.address)
      (c.sets.getD (setIndexOf c.config e.address) []) = true
  · rw [access_hit_eq c e hc hl] at hacc
    have hr : r.hit = true := by
      cases hacc
      rfl
    rw [hr]
    simp only [true_iff]
    exact (setLookup_iff _ _).1 hl
  · rw [access_miss_eq c e hc (by simpa using hl)] at hacc
    have hr : r.hit = false := by
      cases hacc
      rfl
    rw [hr]
    constructor
    · intro hfalse
      exact absurd hfalse (by simp)
    · intro hex
      exact absurd ((setLookup_iff _ _).2 hex) (by simpa using hl)

/-- C3 witness: the decomposition equalities and the tag-equality hit
criterion instantiated on a 4:2:32 geometry at address 100. -/
theorem address_decomposition_exact_witness :
    isPow2 (4 : Nat) = true ∧ isPow2 (32 : Nat) = true
    ∧ (blockNumber ⟨4, 2, 32⟩ 100 = (100 - 100 % 32) / 32
      ∧ setIndexOf ⟨4, 2, 32⟩ 100 = ((100 - 100 % 32) / 32) % 4
      ∧ tagOf ⟨4, 2, 32⟩ 100 = ((100 - 100 % 32) / 32) / 4
      ∧ (∀ (c : CacheInstance) (e : MemTraceEvent) (r : AccessResult),
          c.config = ⟨4, 2, 32⟩ → c.access e = Except.ok r →
          (r.hit = true ↔ ∃ x ∈ c.sets.getD (setIndexOf ⟨4, 2, 32⟩ e.address) [],
            x.valid = true ∧ x.tag = tagOf ⟨4, 2, 32⟩ e.address))) :=
  ⟨by decide, by decide, address_decomposition_exact ⟨4, 2, 32⟩ (by decide) (by decide) 100⟩

/-! Facts about the evicted victim line. -/

theorem victimOf_mem (lines : List CacheLine) (h : lines ≠ []) :
    victimOf lines ∈ lines := by
  unfold victimOf
  cases lines with
  | nil => exact absurd rfl h
  | cons a as =>
    rw [List.getLastD_cons]
    exact List.getLastD_mem_cons as a

theorem tagOf_victimAddr (cfg : CacheConfig) (idx vt : Nat)
    (hS : 0 < cfg.sets) (hB : 0 < cfg.blockBytes) (hidx : idx < cfg.sets) :
    tagOf cfg (victimAddr cfg idx vt) = vt := by
  unfold tagOf blockNumber victimAddr
  rw [Nat.mul_div_cancel _ hB, Nat.mul_comm vt cfg.sets, Nat.add_comm,
    Nat.add_mul_div_left _ _ hS, Nat.div_eq_of_lt hidx]
  omega

/-- C5: an access that misses and evicts a valid dirty line increments the
evicting instance's writebacks counter by exactly one; with a wired miss
handler the forwarded accesses are exactly the store-kind writeback of size B
at the victim's reconstructed block address followed by the original access —
so exactly one forwarded access is the writeback — and with no handler
nothing is forwarded at all. -/
theorem dirty_eviction_writeback (c : CacheInstance) (e : MemTraceEvent)
    (r : AccessResult)
    (hS : 0 < c.config.sets) (hB : 0 < c.config.blockBytes)
    (hacc : c.access e = Except.ok r) (hmiss : r.hit = false)
    (hvalid : (victimOf (c.sets.getD (setIndexOf c.config e.address) [])).valid = true)
    (hdirty : (victimOf (c.sets.getD (setIndexOf c.config e.address) [])).dirty = true) :
    r.inst.writebacks = c.writebacks + 1
    ∧ (c.hasMissHandler = true →
        r.forwarded =
          [⟨victimAddr c.config (setIndexOf c.config e.address)
              (victimOf (c.sets.getD (setIndexOf c.config e.address) [])).tag,
            c.config.blockBytes, AccessKind.store⟩, e]
        ∧ r.forwarded.countP (fun ev => ev.kind.isStore
            && (ev.size == c.config.blockBytes)
            && (ev.address == victimAddr c.config (setIndexOf c.config e.address)
                (victimOf (c.sets.getD (setIndexOf c.config e.address) [])).tag)) = 1)
    ∧ (c.hasMissHandler = false → r.forwarded = []) := by
  have hc := access_ok_contract c e r hacc
  by_cases hl : setLookup (tagOf c.config e.address)
      (c.sets.getD (setIndexOf c.config e.address) []) = true
  · rw [access_hit_eq c e hc hl] at hacc
    have : r.hit = true := by
      cases hacc
      rfl
    rw [this] at hmiss
    exact absurd hmiss (by simp)
  · have hlf : setLookup (tagOf c.config e.address)
        (c.sets.getD (setIndexOf c.config e.address) []) = false := by
      simpa using hl
    rw [access_miss_eq c e hc hlf] at hacc
    cases hacc
    have hde : ((victimOf (c.sets.getD (setIndexOf c.config e.address) [])).valid
        && (victimOf (c.sets.getD (setIndexOf c.config e.address) [])).dirty) = true := by
      rw [hvalid, hdirty]
      rfl
    refine ⟨by rw [hde]; rfl, ?_, ?_⟩
    · intro hh
      simp only [hh, hde, if_true]
      refine ⟨rfl, ?_⟩
      have hne : (victimOf (c.sets.getD (setIndexOf c.config e.address) [])).tag
          ≠ tagOf c.config e.address := by
        intro heq
        have hmem : victimOf (c.sets.getD (setIndexOf c.config e.address) [])
            ∈ c.sets.getD (setIndexOf c.config e.address) [] := by
          apply victimOf_mem
          intro hnil
          rw [hnil] at hvalid
          exact absurd hvalid (by decide)
        have : setLookup (tagOf c.config e.address)
            (c.sets.getD (setIndexOf c.config e.address) []) = true :=
          (setLookup_iff _ _).2 ⟨_, hmem, hvalid, heq⟩
        rw [this] at hlf
        exact absurd hlf (by simp)
      have hpe : (e.kind.isStore && (e.size == c.config.blockBytes)
          && (e.address == victimAddr c.config (setIndexOf c.config e.address)
              (victimOf (c.sets.getD (setIndexOf c.config e.address) [])).tag)) = false := by
        by_cases hea : e.address = victimAddr c.config (setIndexOf c.config e.address)
            (victimOf (c.sets.getD (setIndexOf c.config e.address) [])).tag
        · exfalso
          apply hne
          have hidx : setIndexOf c.config e.address < c.config.sets :=
            Nat.mod_lt _ hS
          have h2 := congrArg (tagOf c.config) hea
          rw [tagOf_victimAddr c.config (setIndexOf c.config e.address)
            (victimOf (c.sets.getD (setIndexOf c.config e.address) [])).tag
            hS hB hidx] at h2
          exact h2.symm
        · have hb : (e.address == victimAddr c.config (setIndexOf c.config e.address)
              (victimOf (c.sets.getD (setIndexOf c.config e.address) [])).tag) = false :=
            beq_eq_false_iff_ne.2 hea
          rw [hb]
          simp
      rw [List.countP_append, List.countP_cons, List.countP_cons, List.countP_nil]
      rw [hpe]
      simp [AccessKind.isStore]
    · intro hh
      simp [hh]

/-- C5 witness: a 1:1:64 instance holding a dirty line with tag 5, accessed
at a different block, writes back exactly one store of size 64 at the
victim's block address 320 and bumps writebacks from 0 to 1. -/
theorem dirty_eviction_writeback_witness :
    (0 : Nat) < 1 ∧ (0 : Nat) < 64
    ∧ (⟨⟨1, 1, 64⟩, [[⟨true, true, 5⟩]], 3, 1, 2, 0, true⟩ : CacheInstance).access
        ⟨0, 4, AccessKind.load⟩
      = Except.ok ⟨⟨⟨1, 1, 64⟩, [[⟨true, false, 0⟩]], 4, 1, 3, 1, true⟩, false,
          [⟨320, 64, AccessKind.store⟩, ⟨0, 4, AccessKind.load⟩]⟩
    ∧ (victimOf ((⟨⟨1, 1, 64⟩, [[⟨true, true, 5⟩]], 3, 1, 2, 0, true⟩ : CacheInstance).sets.getD
        (setIndexOf ⟨1, 1, 64⟩ 0) [])).valid = true
    ∧ (victimOf ((⟨⟨1, 1, 64⟩, [[⟨true, true, 5⟩]], 3, 1, 2, 0, true⟩ : CacheInstance).sets.getD
        (setIndexOf ⟨1, 1, 64⟩ 0) [])).dirty = true
    ∧ (⟨⟨⟨1, 1, 64⟩, [[⟨true, false, 0⟩]], 4, 1, 3, 1, true⟩, false,
          [⟨320, 64, AccessKind.store⟩, ⟨0, 4, AccessKind.load⟩]⟩ : AccessResult).inst.writebacks
        = (⟨⟨1, 1, 64⟩, [[⟨true, true, 5⟩]], 3, 1, 2, 0, true⟩ : CacheInstance).writebacks + 1
    ∧ (⟨⟨⟨1, 1, 64⟩, [[⟨true, false, 0⟩]], 4, 1, 3, 1, true⟩, false,
          [⟨320, 64, AccessKind.store⟩, ⟨0, 4, AccessKind.load⟩]⟩ : AccessResult).forwarded
        = [⟨320, 64, AccessKind.store⟩, ⟨0, 4, AccessKind.load⟩] := by
  have h := dirty_eviction_writeback
    ⟨⟨1, 1, 64⟩, [[⟨true, true, 5⟩]], 3, 1, 2, 0, true⟩
    ⟨0, 4, AccessKind.load⟩
    ⟨⟨⟨1, 1, 64⟩, [[⟨true, false, 0⟩]], 4, 1, 3, 1, true⟩, false,
      [⟨320, 64, AccessKind.store⟩, ⟨0, 4, AccessKind.load⟩]⟩
    (by decide) (by decide) (by decide) (by decide) (by decide) (by decide)
  exact ⟨by decide, by decide, by decide, by decide, by decide, h.1, (h.2.1 rfl).1⟩

/-- C6 (amended): with an L1 "4:2:32" chained to an L2 "1:4:128", every L1
miss forwards the original access (kind/address/size unchanged) to L2 as the
last forwarded event and bumps L1's misses by one; when the miss does not
also evict a dirty line (no writeback precedes the forwarded access), a miss
in both levels bumps each instance's misses by exactly one and an L1 miss
that hits in L2 bumps L2's hits by exactly one; L2, having no handler, never
forwards anything, so no access propagates beyond L2. -/
theorem chained_miss_propagation (l1 l2 : CacheInstance) (e : MemTraceEvent)
    (r1 : AccessResult)
    (hc1 : l1.config = ⟨4, 2, 32⟩) (hc2 : l2.config = ⟨1, 4, 128⟩)
    (hh1 : l1.hasMissHandler = true) (hh2 : l2.hasMissHandler = false)
    (hacc : l1.access e = Except.ok r1) (hmiss : r1.hit = false) :
    r1.forwarded.getLast? = some e
    ∧ r1.inst.misses = l1.misses + 1
    ∧ (∀ e' r2, l2.access e' = Except.ok r2 → r2.forwarded = [])
    ∧ (r1.forwarded = [e] → ∀ r2, l2.access e = Except.ok r2 →
        runA l2 r1.forwarded = r2.inst
        ∧ (r2.hit = false → r2.inst.misses = l2.misses + 1)
        ∧ (r2.hit = true → r2.inst.hits = l2.hits + 1)) := by
  have hfwd2 : ∀ e' r2, l2.access e' = Except.ok r2 → r2.forwarded = [] := by
    intro e' r2 hacc2
    have hc' := access_ok_contract l2 e' r2 hacc2
    by_cases hl2 : setLookup (tagOf l2.config e'.address)
        (l2.sets.getD (setIndexOf l2.config e'.address) []) = true
    · rw [access_hit_eq l2 e' hc' hl2] at hacc2
      cases hacc2
      rfl
    · rw [access_miss_eq l2 e' hc' (by simpa using hl2)] at hacc2
      cases hacc2
      simp [hh2]
  have hc := access_ok_contract l1 e r1 hacc
  by_cases hl : setLookup (tagOf l1.config e.address)
      (l1.sets.getD (setIndexOf l1.config e.address) []) = true
  · rw [access_hit_eq l1 e hc hl] at hacc
    cases hacc
    exact absurd hmiss (by simp)
  · rw [access_miss_eq l1 e hc (by simpa using hl)] at hacc
    cases hacc
    refine ⟨?_, rfl, hfwd2, ?_⟩
    · show (if l1.hasMissHandler = true then _ ++ [e] else []).getLast? = some e
      rw [hh1, if_pos rfl, List.getLast?_concat]
    · intro hfwd r2 hacc2
      refine ⟨?_, ?_, ?_⟩
      · show runA l2 (if l1.hasMissHandler = true then _ ++ [e] else []) = r2.inst
        rw [show (if l1.hasMissHandler = true then
            (if ((victimOf (l1.sets.getD (setIndexOf l1.config e.address) [])).valid
                && (victimOf (l1.sets.getD (setIndexOf l1.config e.address) [])).dirty) = true
             then [⟨victimAddr l1.config (setIndexOf l1.config e.address)
                 (victimOf (l1.sets.getD (setIndexOf l1.config e.address) [])).tag,
               l1.config.blockBytes, AccessKind.store⟩] else []) ++ [e] else []) = [e] from hfwd]
        show stepA l2 e = r2.inst
        unfold stepA
        rw [hacc2]
      · intro hm2
        have hc' := access_ok_contract l2 e r2 hacc2
        by_cases hl2 : setLookup (tagOf l2.config e.address)
            (l2.sets.getD (setIndexOf l2.config e.address) []) = true
        · rw [access_hit_eq l2 e hc' hl2] at hacc2
          cases hacc2
          exact absurd hm2 (by simp)
        · rw [access_miss_eq l2 e hc' (by simpa using hl2)] at hacc2
          cases hacc2
          rfl
      · intro hm2
        have hc' := access_ok_contract l2 e r2 hacc2
        by_cases hl2 : setLookup (tagOf l2.config e.address)
            (l2.sets.getD (setIndexOf l2.config e.address) []) = true
        · rw [access_hit_eq l2 e hc' hl2] at hacc2
          cases hacc2
          rfl
        · rw [access_miss_eq l2 e hc' (by simpa using hl2)] at hacc2
          cases hacc2
          exact absurd hm2 (by simp)

/-- C6 witness: the amended chained-propagation theorem applied to fresh
L1 "4:2:32" and L2 "1:4:128" instances on a first (cold, clean-evicting)
access. -/
theorem chained_miss_propagation_witness :
    ((freshInstance 4 2 32).set_miss_handler.config = ⟨4, 2, 32⟩)
    ∧ ((freshInstance 1 4 128).config = ⟨1, 4, 128⟩)
    ∧ ((freshInstance 4 2 32).set_miss_handler.hasMissHandler = true)
    ∧ ((freshInstance 1 4 128).hasMissHandler = false)
    ∧ ((freshInstance 4 2 32).set_miss_handler.access ⟨0, 4, AccessKind.load⟩
        = Except.ok ⟨⟨⟨4, 2, 32⟩,
            (freshInstance 4 2 32).sets.set 0 [⟨true, false, 0⟩, freshLine],
            1, 0, 1, 0, true⟩, false, [⟨0, 4, AccessKind.load⟩]⟩)
    ∧ ((⟨⟨⟨4, 2, 32⟩,
            (freshInstance 4 2 32).sets.set 0 [⟨true, false, 0⟩, freshLine],
            1, 0, 1, 0, true⟩, false, [⟨0, 4, AccessKind.load⟩]⟩ : AccessResult).hit = false)
    ∧ ((⟨⟨⟨4, 2, 32⟩,
            (freshInstance 4 2 32).sets.set 0 [⟨true, false, 0⟩, freshLine],
            1, 0, 1, 0, true⟩, false, [⟨0, 4, AccessKind.load⟩]⟩ : AccessResult).forwarded.getLast?
        = some ⟨0, 4, AccessKind.load⟩)
    ∧ ((⟨⟨⟨4, 2, 32⟩,
            (freshInstance 4 2 32).sets.set 0 [⟨true, false, 0⟩, freshLine],
            1, 0, 1, 0, true⟩, false, [⟨0, 4, AccessKind.load⟩]⟩ : AccessResult).inst.misses
        = (freshInstance 4 2 32).set_miss_handler.misses + 1)
    ∧ (∀ e' r2, (freshInstance 1 4 128).access e' = Except.ok r2 → r2.forwarded = []) := by
  have h := chained_miss_propagation (freshInstance 4 2 32).set_miss_handler
    (freshInstance 1 4 128) ⟨0, 4, AccessKind.load⟩
    ⟨⟨⟨4, 2, 32⟩,
        (freshInstance 4 2 32).sets.set 0 [⟨true, false, 0⟩, freshLine],
        1, 0, 1, 0, true⟩, false, [⟨0, 4, AccessKind.load⟩]⟩
    (by decide) (by decide) (by decide) (by decide) (by decide) (by decide)
  exact ⟨by decide, by decide, by decide, by decide, by decide, by decide,
    h.1, h.2.1, h.2.2.1⟩

/-- C6 counterexample: after priming the chain (L1 "4:2:32" wired to L2
"1:4:128") so that L1 set 0 holds a dirty line whose 128-byte block has been
evicted from L2, the access at address 640 misses in L1 and in L2, yet L2's
misses counter advances by two (the dirty-victim writeback also misses in
L2), not by one as the claim states. -/
theorem chained_miss_count_counterexample :
    (((runChain ((freshInstance 4 2 32).set_miss_handler, freshInstance 1 4 128)
        [⟨0, 4, AccessKind.store⟩, ⟨128, 4, AccessKind.load⟩, ⟨288, 4, AccessKind.load⟩,
          ⟨416, 4, AccessKind.load⟩, ⟨544, 4, AccessKind.load⟩]).1.access
        ⟨640, 4, AccessKind.load⟩).map (fun r => r.hit) = Except.ok false)
    ∧ (((runChain ((freshInstance 4 2 32).set_miss_handler, freshInstance 1 4 128)
        [⟨0, 4, AccessKind.store⟩, ⟨128, 4, AccessKind.load⟩, ⟨288, 4, AccessKind.load⟩,
          ⟨416, 4, AccessKind.load⟩, ⟨544, 4, AccessKind.load⟩]).2.access
        ⟨640, 4, AccessKind.load⟩).map (fun r => r.hit) = Except.ok false)
    ∧ (((runChain ((freshInstance 4 2 32).set_miss_handler, freshInstance 1 4 128)
        [⟨0, 4, AccessKind.store⟩, ⟨128, 4, AccessKind.load⟩, ⟨288, 4, AccessKind.load⟩,
          ⟨416, 4, AccessKind.load⟩, ⟨544, 4, AccessKind.load⟩]).1.access
        ⟨640, 4, AccessKind.load⟩).map
        (fun r => (runA (runChain ((freshInstance 4 2 32).set_miss_handler,
            freshInstance 1 4 128)
          [⟨0, 4, AccessKind.store⟩, ⟨128, 4, AccessKind.load⟩, ⟨288, 4, AccessKind.load⟩,
            ⟨416, 4, AccessKind.load⟩, ⟨544, 4, AccessKind.load⟩]).2 r.forwarded).misses)
      = Except.ok ((runChain ((freshInstance 4 2 32).set_miss_handler,
            freshInstance 1 4 128)
          [⟨0, 4, AccessKind.store⟩, ⟨128, 4, AccessKind.load⟩, ⟨288, 4, AccessKind.load⟩,
            ⟨416, 4, AccessKind.load⟩, ⟨544, 4, AccessKind.load⟩]).2.misses + 2)) := by
  refine ⟨by decide, by decide, by decide⟩

/-! Decimal rendering and parsing round trip for configuration literals. -/

theorem digitChar_val (d : Nat) (h : d < 10) :
    digitVal (Char.ofNat (48 + d)) = d
    ∧ isDigitChar (Char.ofNat (48 + d)) = true
    ∧ Char.ofNat (48 + d) ≠ ':' := by
  interval_cases d <;> exact ⟨by decide, by decide, by decide⟩

theorem renderNatAux_facts (fuel : Nat) :
    ∀ n, n ≤ fuel →
      (∀ c ∈ renderNatAux fuel n, isDigitChar c = true ∧ c ≠ ':')
      ∧ (0 < n → renderNatAux fuel n ≠ [])
      ∧ ∀ a, (renderNatAux fuel n).foldl (fun a c => 10 * a + digitVal c) a
          = a * 10 ^ (renderNatAux fuel n).length + n := by
  induction fuel with
  | zero =>
    intro n hn
    have hn0 : n = 0 := by omega
    subst hn0
    refine ⟨by intro c hc; exact absurd hc (by simp [renderNatAux]), by omega, ?_⟩
    intro a
    simp [renderNatAux]
  | succ fuel ih =>
    intro n hn
    by_cases h0 : n = 0
    · subst h0
      refine ⟨by intro c hc; exact absurd hc (by simp [renderNatAux]), by omega, ?_⟩
      intro a
      simp [renderNatAux]
    · have hrec := ih (n / 10) (by omega)
      have hd : n % 10 < 10 := Nat.mod_lt _ (by omega)
      have hdc := digitChar_val (n % 10) hd
      have hshape : renderNatAux (fuel + 1) n
          = renderNatAux fuel (n / 10) ++ [Char.ofNat (48 + n % 10)] := by
        rw [show renderNatAux (fuel + 1) n
            = if n = 0 then []
              else renderNatAux fuel (n / 10) ++ [Char.ofNat (48 + n % 10)] from rfl]
        simp [h0]
      refine ⟨?_, ?_, ?_⟩
      · intro c hc
        rw [hshape] at hc
        rcases List.mem_append.1 hc with hc | hc
        · exact hrec.1 c hc
        · rcases List.mem_singleton.1 hc with rfl
          exact ⟨hdc.2.1, hdc.2.2⟩
      · intro _
        rw [hshape]
        simp
      · intro a
        rw [hshape, List.foldl_append]
        rw [hrec.2.2 a]
        simp only [List.length_append, List.length_singleton, List.foldl_cons,
          List.foldl_nil]
        rw [hdc.1]
        have hmod := Nat.div_add_mod n 10
        rw [pow_succ]
        ring_nf
        omega

theorem renderNat_facts (n : Nat) :
    (∀ c ∈ renderNat n, isDigitChar c = true ∧ c ≠ ':')
    ∧ renderNat n ≠ []
    ∧ parseField (renderNat n) = some n := by
  by_cases h0 : n = 0
  · subst h0
    refine ⟨?_, by decide, by decide⟩
    intro c hc
    rcases List.mem_singleton.1 hc with rfl
    exact ⟨by decide, by decide⟩
  · have hf := renderNatAux_facts n n (le_refl n)
    have hne : renderNat n ≠ [] := by
      unfold renderNat
      simp only [h0, if_false]
      exact hf.2.1 (by omega)
    have hdig : ∀ c ∈ renderNat n, isDigitChar c = true ∧ c ≠ ':' := by
      intro c hc
      unfold renderNat at hc
      simp only [h0, if_false] at hc
      exact hf.1 c hc
    refine ⟨hdig, hne, ?_⟩
    unfold parseField
    have hall : (renderNat n).all isDigitChar = true := by
      rw [List.all_eq_true]
      intro c hc
      exact (hdig c hc).1
    have hemp : (renderNat n).isEmpty = false := by
      rw [List.isEmpty_eq_false_iff_exists_mem]
      cases hx : renderNat n with
      | nil => exact absurd hx hne
      | cons a as => exact ⟨a, List.mem_cons_self a as⟩
    rw [hemp, hall]
    simp only [Bool.not_false, Bool.true_and, if_pos]
    congr 1
    show (renderNat n).foldl (fun a c => 10 * a + digitVal c) 0 = n
    unfold renderNat
    simp only [h0, if_false]
    rw [hf.2.2 0]
    omega

theorem splitColon_no_colon (xs : List Char) (h : ∀ c ∈ xs, c ≠ ':') :
    splitColon xs = [xs] := by
  induction xs with
  | nil => rfl
  | cons a as ih =>
    have ha : a ≠ ':' := h a (List.mem_cons_self a as)
    rw [show splitColon (a :: as)
        = if a = ':' then [] :: splitColon as
          else (match splitColon as with
            | f :: r => (a :: f) :: r
            | [] => [[a]]) from rfl]
    rw [if_neg ha, ih (fun c hc => h c (List.mem_cons_of_mem a hc))]

theorem splitColon_append (xs ys : List Char) (h : ∀ c ∈ xs, c ≠ ':') :
    splitColon (xs ++ ':' :: ys) = xs :: splitColon ys := by
  induction xs with
  | nil =>
    rw [List.nil_append]
    rw [show splitColon (':' :: ys)
        = if ':' = ':' then [] :: splitColon ys
          else (match splitColon ys with
            | f :: r => (':' :: f) :: r
            | [] => [[':']]) from rfl]
    rw [if_pos rfl]
  | cons a as ih =>
    have ha : a ≠ ':' := h a (List.mem_cons_self a as)
    rw [List.cons_append]
    rw [show splitColon (a :: (as ++ ':' :: ys))
        = if a = ':' then [] :: splitColon (as ++ ':' :: ys)
          else (match splitColon (as ++ ':' :: ys) with
            | f :: r => (a :: f) :: r
            | [] => [[a]]) from rfl]
    rw [if_neg ha, ih (fun c hc => h c (List.mem_cons_of_mem a hc))]

theorem splitColon_specChars (S W B : Nat) :
    splitColon (specChars S W B) = [renderNat S, renderNat W, renderNat B] := by
  have hsc : specChars S W B
      = renderNat S ++ ':' :: (renderNat W ++ ':' :: renderNat B) := by
    unfold specChars
    simp [List.append_assoc]
  rw [hsc]
  rw [splitColon_append _ _ (fun c hc => ((renderNat_facts S).1 c hc).2)]
  rw [splitColon_append _ _ (fun c hc => ((renderNat_facts W).1 c hc).2)]
  rw [splitColon_no_colon _ (fun c hc => ((renderNat_facts B).1 c hc).2)]

/-- C7: construction from a rendered "S:W:B" literal succeeds for every
power-of-two S and B and every W ≥ 1 (indeed for every W), yielding the fresh
S-set, W-way all-invalid zero-counter instance; a string that is not exactly
three ':'-separated decimal fields yields `MalformedSpec`; a non-power-of-two
S yields `NotPowerOfTwo` naming the sets field, and with S a power of two a
non-power-of-two B yields `NotPowerOfTwo` naming the block-bytes field; W has
no power-of-two constraint. -/
theorem construct_spec_parsing :
    (∀ S W B : Nat, isPow2 S = true → isPow2 B = true → 1 ≤ W →
      construct (specChars S W B) = Except.ok (freshInstance S W B))
    ∧ (∀ cs : List Char,
        (¬ ∃ f1 f2 f3, splitColon cs = [f1, f2, f3]
          ∧ (∃ n1, parseField f1 = some n1)
          ∧ (∃ n2, parseField f2 = some n2)
          ∧ (∃ n3, parseField f3 = some n3)) →
        construct cs = Except.error ConfigError.malformedSpec)
    ∧ (∀ S W B : Nat, isPow2 S = false →
        construct (specChars S W B) = Except.error (ConfigError.notPowerOfTwo SpecField.sets))
    ∧ (∀ S W B : Nat, isPow2 S = true → isPow2 B = false →
        construct (specChars S W B)
          = Except.error (ConfigError.notPowerOfTwo SpecField.blockBytes)) := by
  refine ⟨?_, ?_, ?_, ?_⟩
  · intro S W B hS hB hW
    unfold construct
    simp only [splitColon_specChars, (renderNat_facts S).2.2, (renderNat_facts W).2.2,
      (renderNat_facts B).2.2]
    simp [hS, hB]
  · intro cs h
    unfold construct
    cases hsp : splitColon cs with
    | nil => rfl
    | cons f1 r1 =>
      cases r1 with
      | nil => rfl
      | cons f2 r2 =>
        cases r2 with
        | nil => rfl
        | cons f3 r3 =>
          cases r3 with
          | cons f4 r4 => rfl
          | nil =>
            cases hp1 : parseField f1 with
            | none => simp [hp1]
            | some n1 =>
              cases hp2 : parseField f2 with
              | none => simp [hp1, hp2]
              | some n2 =>
                cases hp3 : parseField f3 with
                | none => simp [hp1, hp2, hp3]
                | some n3 =>
                  exact absurd ⟨f1, f2, f3, hsp, ⟨n1, hp1⟩, ⟨n2, hp2⟩, ⟨n3, hp3⟩⟩ h
  · intro S W B hS
    unfold construct
    simp only [splitColon_specChars, (renderNat_facts S).2.2, (renderNat_facts W).2.2,
      (renderNat_facts B).2.2]
    simp [hS]
  · intro S W B hS hB
    unfold construct
    simp only [splitColon_specChars, (renderNat_facts S).2.2, (renderNat_facts W).2.2,
      (renderNat_facts B).2.2]
    simp [hS, hB]

/-- C7 witness: "4:2:32" constructs the fresh instance, "4:2" is malformed,
"3:2:64" fails on the sets field and "4:2:63" on the block-bytes field. -/
theorem construct_spec_parsing_witness :
    (isPow2 4 = true ∧ isPow2 32 = true ∧ (1 : Nat) ≤ 2
      ∧ construct (specChars 4 2 32) = Except.ok (freshInstance 4 2 32))
    ∧ construct ['4', ':', '2'] = Except.error ConfigError.malformedSpec
    ∧ (isPow2 3 = false
      ∧ construct (specChars 3 2 64) = Except.error (ConfigError.notPowerOfTwo SpecField.sets))
    ∧ (isPow2 63 = false
      ∧ construct (specChars 4 2 63)
          = Except.error (ConfigError.notPowerOfTwo SpecField.blockBytes)) := by
  refine ⟨⟨by decide, by decide, by decide,
      construct_spec_parsing.1 4 2 32 (by decide) (by decide) (by decide)⟩,
    ?_,
    ⟨by decide, construct_spec_parsing.2.2.1 3 2 64 (by decide)⟩,
    ⟨by decide, construct_spec_parsing.2.2.2 4 2 63 (by decide) (by decide)⟩⟩
  apply construct_spec_parsing.2.1
  rintro ⟨f1, f2, f3, hsp, _⟩
  rw [show splitColon ['4', ':', '2'] = [['4'], ['2']] from by decide] at hsp
  exact absurd hsp (by simp)

/-! List lemmas supporting the LRU-retention argument. -/

theorem mem_take_succ {α : Type} (l : List α) (m : Nat) (x : α) (h : x ∈ l.take m) :
    x ∈ l.take (m + 1) := by
  have h1 : l.take m = (l.take (m + 1)).take m := by
    rw [List.take_take]
    congr 1
    omega
  rw [h1] at h
  exact List.take_subset _ _ h

theorem mem_take_eraseP {α : Type} (p : α → Bool) (x : α) (hx : p x = false) :
    ∀ (l : List α) (m : Nat), x ∈ l.take m → x ∈ (l.eraseP p).take m := by
  intro l
  induction l with
  | nil =>
    intro m h
    simp at h
  | cons a as ih =>
    intro m h
    cases m with
    | zero => simp at h
    | succ m' =>
      rw [List.take_succ_cons, List.mem_cons] at h
      rw [List.eraseP_cons]
      cases hpa : p a with
      | true =>
        simp only [hpa, cond_true]
        rcases h with rfl | h
        · rw [hpa] at hx
          exact absurd hx (by simp)
        · exact mem_take_succ as m' x h
      | false =>
        simp only [hpa, cond_false]
        rw [List.take_succ_cons, List.mem_cons]
        rcases h with rfl | h
        · exact Or.inl rfl
        · exact Or.inr (ih m' h)

theorem take_dropLast_eq {α : Type} (l : List α) (m : Nat) (h : m ≤ l.length - 1) :
    l.dropLast.take m = l.take m := by
  rw [List.dropLast_eq_take, List.take_take]
  congr 1
  omega

theorem getD_set_self (l : List (List CacheLine)) (i : Nat) (x : List CacheLine)
    (h : i < l.length) : (l.set i x).getD i [] = x := by
  rw [List.getD_eq_getElem?_getD, List.getElem?_set_self]
  · rfl
  · exact h

theorem getD_set_ne (l : List (List CacheLine)) (i j : Nat) (x : List CacheLine)
    (h : i ≠ j) : (l.set i x).getD j [] = l.getD j [] := by
  rw [List.getD_eq_getElem?_getD, List.getElem?_set_ne h, ← List.getD_eq_getElem?_getD]

theorem getD_mem (l : List (List CacheLine)) (i : Nat) (h : i < l.length) :
    l.getD i [] ∈ l := by
  rw [List.getD_eq_getElem?_getD, List.getElem?_eq_getElem h]
  exact List.getElem_mem h

/-! Structural preservation of the geometry along a run. -/

theorem length_setTouch (t : Nat) (b : Bool) (lines : List CacheLine) :
    (setTouch t b lines).length = lines.length := by
  unfold setTouch
  cases hf : lines.find? (lineMatches t) with
  | none => rfl
  | some l =>
    have hm : l ∈ lines := List.mem_of_find?_eq_some hf
    have hp : lineMatches t l = true := List.find?_some hf
    simp only [List.length_cons, List.length_eraseP_of_mem hm hp]
    have hpos : 0 < lines.length := List.length_pos_of_mem hm
    omega

theorem length_setInstall (t : Nat) (b : Bool) (lines : List CacheLine)
    (h : 0 < lines.length) : (setInstall t b lines).length = lines.length := by
  unfold setInstall
  simp only [List.length_cons, List.length_dropLast]
  omega

theorem WF_stepA (c : CacheInstance) (e : MemTraceEvent)
    (hwf : WF c) (hS : 0 < c.config.sets) (hW : 1 ≤ c.config.ways) :
    WF (stepA c e) := by
  unfold stepA
  by_cases hc : inContract c.config e
  case neg =>
    rw [access_error_of_not_contract c e (by simpa using hc)]
    exact hwf
  case pos =>
    have hidx : setIndexOf c.config e.address < c.sets.length := by
      rw [hwf.1]
      exact Nat.mod_lt _ hS
    have hlen : (c.sets.getD (setIndexOf c.config e.address) []).length = c.config.ways :=
      hwf.2 _ (getD_mem _ _ hidx)
    by_cases hl : setLookup (tagOf c.config e.address)
        (c.sets.getD (setIndexOf c.config e.address) []) = true
    · rw [access_hit_eq c e hc hl]
      refine ⟨by simp [List.length_set, hwf.1], ?_⟩
      intro ls hls
      rcases List.mem_or_eq_of_mem_set hls with h | rfl
      · exact hwf.2 ls h
      · rw [length_setTouch]
        exact hlen
    · rw [access_miss_eq c e hc (by simpa using hl)]
      refine ⟨by simp [List.length_set, hwf.1], ?_⟩
      intro ls hls
      rcases List.mem_or_eq_of_mem_set hls with h | rfl
      · exact hwf.2 ls h
      · rw [length_setInstall _ _ _ (by omega)]
        exact hlen

theorem stepA_sets_other (c : CacheInstance) (e : MemTraceEvent) (s : Nat)
    (hne : setIndexOf c.config e.address ≠ s) :
    (stepA c e).sets.getD s [] = c.sets.getD s [] := by
  unfold stepA
  by_cases hc : inContract c.config e
  · by_cases hl : setLookup (tagOf c.config e.address)
        (c.sets.getD (setIndexOf c.config e.address) []) = true
    · rw [access_hit_eq c e hc hl]
      exact getD_set_ne _ _ _ _ hne
    · rw [access_miss_eq c e hc (by simpa using hl)]
      exact getD_set_ne _ _ _ _ hne
  · rw [access_error_of_not_contract c e (by simpa using hc)]

/-! The recency-position invariant under one access and under a run. -/

theorem hasValidTagIn_stepA (c : CacheInstance) (e : MemTraceEvent) (T m : Nat)
    (hwf : WF c) (hS : 0 < c.config.sets)
    (htag : tagOf c.config e.address ≠ T)
    (hm : m ≤ c.config.ways - 1)
    (hin : hasValidTagIn (c.sets.getD (setIndexOf c.config e.address) []) T m) :
    hasValidTagIn ((stepA c e).sets.getD (setIndexOf c.config e.address) []) T (m + 1) := by
  obtain ⟨x, hxmem, hxv, hxt⟩ := hin
  unfold stepA
  by_cases hc : inContract c.config e
  case neg =>
    rw [access_error_of_not_contract c e (by simpa using hc)]
    exact ⟨x, mem_take_succ _ _ _ hxmem, hxv, hxt⟩
  case pos =>
    have hidx : setIndexOf c.config e.address < c.sets.length := by
      rw [hwf.1]
      exact Nat.mod_lt _ hS
    have hlen : (c.sets.getD (setIndexOf c.config e.address) []).length = c.config.ways :=
      hwf.2 _ (getD_mem _ _ hidx)
    have hpx : lineMatches (tagOf c.config e.address) x = false := by
      unfold lineMatches
      rw [hxv, hxt]
      simp only [Bool.true_and]
      exact beq_eq_false_iff_ne.2 (fun hq => htag hq.symm)
    by_cases hl : setLookup (tagOf c.config e.address)
        (c.sets.getD (setIndexOf c.config e.address) []) = true
    · rw [access_hit_eq c e hc hl]
      show hasValidTagIn ((c.sets.set (setIndexOf c.config e.address) _).getD
        (setIndexOf c.config e.address) []) T (m + 1)
      rw [getD_set_self _ _ _ hidx]
      have hsome : ((c.sets.getD (setIndexOf c.config e.address) []).find?
          (lineMatches (tagOf c.config e.address))).isSome := by
        rw [List.find?_isSome]
        unfold setLookup at hl
        rw [List.any_eq_true] at hl
        exact hl
      cases hf : (c.sets.getD (setIndexOf c.config e.address) []).find?
          (lineMatches (tagOf c.config e.address)) with
      | none =>
        rw [hf] at hsome
        exact absurd hsome (by simp)
      | some lfound =>
        unfold setTouch
        rw [hf]
        refine ⟨x, ?_, hxv, hxt⟩
        rw [List.take_succ_cons]
        exact List.mem_cons_of_mem _ (mem_take_eraseP _ _ hpx _ _ hxmem)
    · rw [access_miss_eq c e hc (by simpa using hl)]
      show hasValidTagIn ((c.sets.set (setIndexOf c.config e.address) _).getD
        (setIndexOf c.config e.address) []) T (m + 1)
      rw [getD_set_self _ _ _ hidx]
      unfold setInstall
      refine ⟨x, ?_, hxv, hxt⟩
      rw [List.take_succ_cons]
      apply List.mem_cons_of_mem
      rw [take_dropLast_eq _ _ (by omega)]
      exact hxmem

theorem lru_preserved_runA (cfg : CacheConfig) (s T : Nat) :
    ∀ (es : List MemTraceEvent) (c : CacheInstance) (m : Nat),
      c.config = cfg → WF c → 0 < cfg.sets → 1 ≤ cfg.ways →
      hasValidTagIn (c.sets.getD s []) T m →
      m + (es.filter (fun e => setIndexOf cfg e.address == s)).length ≤ cfg.ways →
      (∀ e ∈ es, setIndexOf cfg e.address = s → tagOf cfg e.address ≠ T) →
      WF (runA c es) ∧ (runA c es).config = cfg
        ∧ ∃ x ∈ (runA c es).sets.getD s [], x.valid = true ∧ x.tag = T := by
  intro es
  induction es with
  | nil =>
    intro c m hconf hwf hS hW hin hbound htags
    obtain ⟨x, hxmem, hxv, hxt⟩ := hin
    exact ⟨hwf, hconf, x, List.take_subset _ _ hxmem, hxv, hxt⟩
  | cons e es ih =>
    intro c m hconf hwf hS hW hin hbound htags
    have hS' : 0 < c.config.sets := by rw [hconf]; exact hS
    have hW' : 1 ≤ c.config.ways := by rw [hconf]; exact hW
    have hwf' : WF (stepA c e) := WF_stepA c e hwf hS' hW'
    have hconf' : (stepA c e).config = cfg := by rw [stepA_config, hconf]
    have hrun : runA c (e :: es) = runA (stepA c e) es := rfl
    rw [hrun]
    by_cases hset : setIndexOf cfg e.address = s
    · have hfcons : ((e :: es).filter (fun e => setIndexOf cfg e.address == s)).length
          = ((es.filter (fun e => setIndexOf cfg e.address == s)).length) + 1 := by
        rw [List.filter_cons]
        simp [hset]
      have hm : m ≤ cfg.ways - 1 := by omega
      have hstep : hasValidTagIn ((stepA c e).sets.getD s []) T (m + 1) := by
        have := hasValidTagIn_stepA c e T m hwf hS'
          (by rw [hconf]; exact htags e (List.mem_cons_self e es) hset)
          (by rw [hconf]; exact hm)
          (by rw [hconf, hset]; exact hin)
        rw [hconf, hset] at this
        exact this
      refine ih (stepA c e) (m + 1) hconf' hwf' hS hW hstep ?_ ?_
      · omega
      · intro e' he' hset'
        exact htags e' (List.mem_cons_of_mem e he') hset'
    · have hsame : (stepA c e).sets.getD s [] = c.sets.getD s [] := by
        apply stepA_sets_other
        rw [hconf]
        exact hset
      have hfcons : ((e :: es).filter (fun e => setIndexOf cfg e.address == s)).length
          = (es.filter (fun e => setIndexOf cfg e.address == s)).length := by
        rw [List.filter_cons]
        simp [hset]
      refine ih (stepA c e) m hconf' hwf' hS hW (by rw [hsame]; exact hin) ?_ ?_
      · omega
      · intro e' he' hset'
        exact htags e' (List.mem_cons_of_mem e he') hset'

theorem head_after_access (c : CacheInstance) (e : MemTraceEvent)
    (hwf : WF c) (hS : 0 < c.config.sets)
    (hc : inContract c.config e = true) :
    hasValidTagIn ((stepA c e).sets.getD (setIndexOf c.config e.address) [])
      (tagOf c.config e.address) 1 := by
  unfold stepA
  have hidx : setIndexOf c.config e.address < c.sets.length := by
    rw [hwf.1]
    exact Nat.mod_lt _ hS
  by_cases hl : setLookup (tagOf c.config e.address)
      (c.sets.getD (setIndexOf c.config e.address) []) = true
  · rw [access_hit_eq c e hc hl]
    show hasValidTagIn ((c.sets.set (setIndexOf c.config e.address) _).getD
      (setIndexOf c.config e.address) []) _ 1
    rw [getD_set_self _ _ _ hidx]
    have hsome : ((c.sets.getD (setIndexOf c.config e.address) []).find?
        (lineMatches (tagOf c.config e.address))).isSome := by
      rw [List.find?_isSome]
      unfold setLookup at hl
      rw [List.any_eq_true] at hl
      exact hl
    cases hf : (c.sets.getD (setIndexOf c.config e.address) []).find?
        (lineMatches (tagOf c.config e.address)) with
    | none =>
      rw [hf] at hsome
      exact absurd hsome (by simp)
    | some lfound =>
      unfold setTouch
      rw [hf]
      have hp := List.find?_some hf
      unfold lineMatches at hp
      rw [Bool.and_eq_true, beq_iff_eq] at hp
      refine ⟨⟨lfound.valid, lfound.dirty || e.kind.isStore, lfound.tag⟩, ?_, hp.1, hp.2⟩
      rw [List.take_succ_cons]
      exact List.mem_cons_self _ _
  · rw [access_miss_eq c e hc (by simpa using hl)]
    show hasValidTagIn ((c.sets.set (setIndexOf c.config e.address) _).getD
      (setIndexOf c.config e.address) []) _ 1
    rw [getD_set_self _ _ _ hidx]
    unfold setInstall
    refine ⟨⟨true, e.kind.isStore, tagOf c.config e.address⟩, ?_, rfl, rfl⟩
    rw [List.take_succ_cons]
    exact List.mem_cons_self _ _

/-- C4: exact LRU retention — after an in-contract access to a block with tag
T (which hits or installs T at the most-recently-used position of its set),
if at most W−1 intervening accesses map to that same set, all with tags
different from T, then the next in-contract access to the same set and tag
is a hit. -/
theorem lru_retention (c : CacheInstance) (e0 efin : MemTraceEvent)
    (es : List MemTraceEvent)
    (hwf : WF c) (hS : 0 < c.config.sets) (hW : 1 ≤ c.config.ways)
    (h0 : inContract c.config e0 = true) (hf : inContract c.config efin = true)
    (hsi : setIndexOf c.config efin.address = setIndexOf c.config e0.address)
    (htg : tagOf c.config efin.address = tagOf c.config e0.address)
    (hcount : (es.filter (fun e => setIndexOf c.config e.address
        == setIndexOf c.config e0.address)).length ≤ c.config.ways - 1)
    (htags : ∀ e ∈ es, setIndexOf c.config e.address = setIndexOf c.config e0.address →
        tagOf c.config e.address ≠ tagOf c.config e0.address) :
    ∃ r, (runA (stepA c e0) es).access efin = Except.ok r ∧ r.hit = true := by
  have hwf1 := WF_stepA c e0 hwf hS hW
  have hconf1 : (stepA c e0).config = c.config := stepA_config c e0
  have hhead := head_after_access c e0 hwf hS h0
  have hrun := lru_preserved_runA c.config (setIndexOf c.config e0.address)
    (tagOf c.config e0.address) es (stepA c e0) 1 hconf1 hwf1 hS hW hhead
    (by omega) htags
  obtain ⟨hwfB, hconfB, x, hxmem, hxv, hxt⟩ := hrun
  have hcf : inContract (runA (stepA c e0) es).config efin = true := by
    rw [hconfB]
    exact hf
  have hlook : setLookup (tagOf (runA (stepA c e0) es).config efin.address)
      ((runA (stepA c e0) es).sets.getD
        (setIndexOf (runA (stepA c e0) es).config efin.address) []) = true := by
    rw [hconfB, hsi, htg]
    exact (setLookup_iff _ _).2 ⟨x, hxmem, hxv, hxt⟩
  exact ⟨_, access_hit_eq _ efin hcf hlook, rfl⟩

/-- C4 witness: on a fresh 4:2:32 instance, access block 0 (set 0, tag 0),
then one distinct-tag access to the same set (address 128, tag 1, which is
W−1 = 1 intervening access), and the repeated access to block 0 hits. -/
theorem lru_retention_witness :
    WF (freshInstance 4 2 32)
    ∧ 0 < (freshInstance 4 2 32).config.sets
    ∧ 1 ≤ (freshInstance 4 2 32).config.ways
    ∧ inContract (freshInstance 4 2 32).config ⟨0, 4, AccessKind.load⟩ = true
    ∧ setIndexOf (freshInstance 4 2 32).config 0
        = setIndexOf (freshInstance 4 2 32).config 0
    ∧ (([⟨128, 4, AccessKind.load⟩] :
          List MemTraceEvent).filter (fun e => setIndexOf (freshInstance 4 2 32).config e.address
        == setIndexOf (freshInstance 4 2 32).config 0)).length
        ≤ (freshInstance 4 2 32).config.ways - 1
    ∧ (∀ e ∈ ([⟨128, 4, AccessKind.load⟩] : List MemTraceEvent),
        setIndexOf (freshInstance 4 2 32).config e.address
          = setIndexOf (freshInstance 4 2 32).config 0 →
        tagOf (freshInstance 4 2 32).config e.address
          ≠ tagOf (freshInstance 4 2 32).config 0)
    ∧ ∃ r, (runA (stepA (freshInstance 4 2 32) ⟨0, 4, AccessKind.load⟩)
        [⟨128, 4, AccessKind.load⟩]).access ⟨0, 4, AccessKind.load⟩ = Except.ok r
        ∧ r.hit = true :=
  ⟨by decide, by decide, by decide, by decide, rfl, by decide, by decide,
    lru_retention (freshInstance 4 2 32) ⟨0, 4, AccessKind.load⟩
      ⟨0, 4, AccessKind.load⟩ [⟨128, 4, AccessKind.load⟩]
      (by decide) (by decide) (by decide) (by decide) (by decide) rfl rfl
      (by decide) (by decide)⟩

/-! The assembly model: tracer registration and wiring facts. -/

theorem registeredTracers_append (l1 l2 : List AsmAction) (h : Nat) :
    registeredTracers (l1 ++ l2) h
      = registeredTracers l1 h ++ registeredTracers l2 h := by
  unfold registeredTracers
  exact List.filterMap_append ..

theorem registeredTracers_hartRegs (a : SpikeArgs) (i h : Nat) :
    registeredTracers (hartRegs a i) h = if i = h then hartBase a else [] := by
  unfold hartRegs hartBase registeredTracers
  by_cases hic : a.hasIc <;> by_cases hdc : a.hasDc <;> by_cases hih : i = h <;>
    simp [hic, hdc, hih]

theorem registeredTracers_flatten (a : SpikeArgs) (h : Nat) :
    ∀ l : List Nat, l.Nodup →
      registeredTracers ((l.map (hartRegs a)).flatten) h
        = if h ∈ l then hartBase a else [] := by
  intro l
  induction l with
  | nil =>
    intro _
    simp [registeredTracers]
  | cons i l ih =>
    intro hnd
    rw [List.map_cons, List.flatten_cons, registeredTracers_append,
      registeredTracers_hartRegs]
    have hnd' := List.nodup_cons.1 hnd
    rw [ih hnd'.2]
    by_cases hih : i = h
    · subst hih
      have hni : i ∉ l := hnd'.1
      simp [hni]
    · by_cases hmem : h ∈ l
      · simp [hih, hmem]
      · have hnic : h ∉ i :: l := by
          rw [List.mem_cons]
          rintro (rfl | hq)
          · exact hih rfl
          · exact hmem hq
        simp [hih, hmem, hnic]

theorem registeredTracers_wireIf (b : Bool) (t hd : CacheId) (h : Nat) :
    registeredTracers (if b = true then [AsmAction.wire t hd] else []) h = [] := by
  cases b <;> simp [registeredTracers]

theorem registeredTracers_main (a : SpikeArgs) (h : Nat) :
    registeredTracers (mainActions a) h
      = if h < a.nprocs then hartBase a else [] := by
  unfold mainActions
  simp only [registeredTracers_append, registeredTracers_wireIf,
    registeredTracers_flatten a h (List.range a.nprocs) (List.nodup_range _),
    List.mem_range]
  rw [show registeredTracers [AsmAction.runSim] h = [] from rfl]
  simp

/-- C1 counterexample: with `--ic`, `--dc`, `--l2` given and two processors,
`main` registers the very same `ic` object and the very same `dc` object with
hart 0 and with hart 1 — the per-hart instruction-cache (and data-cache)
tracers are one shared object, not independently-instantiated private
instances. -/
theorem per_hart_private_tracer_counterexample :
    registeredTracers (mainActions ⟨true, true, true, 2⟩) 0
        = [CacheId.icId, CacheId.dcId]
    ∧ registeredTracers (mainActions ⟨true, true, true, 2⟩) 1
        = [CacheId.icId, CacheId.dcId]
    ∧ registeredTracers (mainActions ⟨true, true, true, 2⟩) 0
        = registeredTracers (mainActions ⟨true, true, true, 2⟩) 1 := by
  refine ⟨by decide, by decide, by decide⟩

/-- C1 (amended): `main` constructs at most one instruction-cache, one
data-cache and one L2 object, and registers the same instruction-cache
tracer object (and likewise the same data-cache tracer object) with every
hart: any two harts receive identical tracer registrations. -/
theorem same_tracer_object_all_harts (a : SpikeArgs) (i j : Nat)
    (hi : i < a.nprocs) (hj : j < a.nprocs) :
    registeredTracers (mainActions a) i = registeredTracers (mainActions a) j := by
  rw [registeredTracers_main, registeredTracers_main, if_pos hi, if_pos hj]

/-- C1 witness: with all three caches configured and two harts, harts 0 and 1
receive identical tracer registrations. -/
theorem same_tracer_object_all_harts_witness :
    (0 : Nat) < 2 ∧ (1 : Nat) < 2
    ∧ registeredTracers (mainActions ⟨true, true, true, 2⟩) 0
        = registeredTracers (mainActions ⟨true, true, true, 2⟩) 1 :=
  ⟨by decide, by decide,
    same_tracer_object_all_harts ⟨true, true, true, 2⟩ 0 1 (by decide) (by decide)⟩

theorem mem_hartRegs_flatten (a : SpikeArgs) (l : List Nat) (x : AsmAction)
    (hx : x ∈ (l.map (hartRegs a)).flatten) : ∃ i t, x = AsmAction.register i t := by
  rw [List.mem_flatten] at hx
  obtain ⟨ls, hls, hxl⟩ := hx
  rw [List.mem_map] at hls
  obtain ⟨i, _, rfl⟩ := hls
  unfold hartRegs at hxl
  rcases List.mem_append.1 hxl with h | h
  · by_cases hic : a.hasIc
    · rw [if_pos hic] at h
      rcases List.mem_singleton.1 h with rfl
      exact ⟨i, CacheId.icId, rfl⟩
    · rw [if_neg hic] at h
      exact absurd h (by simp)
  · by_cases hdc : a.hasDc
    · rw [if_pos hdc] at h
      rcases List.mem_singleton.1 h with rfl
      exact ⟨i, CacheId.dcId, rfl⟩
    · rw [if_neg hdc] at h
      exact absurd h (by simp)

theorem countP_hartRegs_flatten (a : SpikeArgs) (l : List Nat)
    (p : AsmAction → Bool) (hp : ∀ i t, p (AsmAction.register i t) = false) :
    ((l.map (hartRegs a)).flatten).countP p = 0 := by
  rw [List.countP_eq_zero]
  intro x hx
  obtain ⟨i, t, rfl⟩ := mem_hartRegs_flatten a l x hx
  rw [hp]
  simp

/-- C9: in `main`'s assembly sequence, `set_miss_handler` targets the
instruction cache exactly once when both `ic` and `l2` exist (never
otherwise), likewise the data cache, the L2 is never the target of any
wiring, and the action list splits into a wiring-only part followed by a
wiring-free part whose last action starts the simulation — so all wiring
happens before any tracer-driven access can occur. -/
theorem wiring_discipline (a : SpikeArgs) :
    ((mainActions a).countP (isWireOf CacheId.icId)
        = if a.hasIc && a.hasL2 then 1 else 0)
    ∧ ((mainActions a).countP (isWireOf CacheId.dcId)
        = if a.hasDc && a.hasL2 then 1 else 0)
    ∧ ((mainActions a).countP (isWireOf CacheId.l2Id) = 0)
    ∧ (∃ pre post, mainActions a = pre ++ post
        ∧ pre.all isWire = true
        ∧ post.all (fun x => !isWire x) = true
        ∧ post.getLast? = some AsmAction.runSim) := by
  have hreg : ∀ t : CacheId, ∀ i t', isWireOf t (AsmAction.register i t') = false := by
    intro t i t'
    rfl
  refine ⟨?_, ?_, ?_, ?_⟩
  · unfold mainActions
    simp only [List.countP_append]
    rw [countP_hartRegs_flatten a _ _ (hreg CacheId.icId)]
    cases hic : a.hasIc <;> cases hl2 : a.hasL2 <;> simp [isWireOf, List.countP_cons]
  · unfold mainActions
    simp only [List.countP_append]
    rw [countP_hartRegs_flatten a _ _ (hreg CacheId.dcId)]
    cases hdc : a.hasDc <;> cases hl2 : a.hasL2 <;> cases hic : a.hasIc <;>
      simp [isWireOf, List.countP_cons]
  · unfold mainActions
    simp only [List.countP_append]
    rw [countP_hartRegs_flatten a _ _ (hreg CacheId.l2Id)]
    cases hic : a.hasIc <;> cases hdc : a.hasDc <;> cases hl2 : a.hasL2 <;>
      simp [isWireOf, List.countP_cons]
  · refine ⟨(if a.hasIc && a.hasL2 then [AsmAction.wire CacheId.icId CacheId.l2Id] else [])
        ++ (if a.hasDc && a.hasL2 then [AsmAction.wire CacheId.dcId CacheId.l2Id] else []),
      ((List.range a.nprocs).map (hartRegs a)).flatten ++ [AsmAction.runSim],
      ?_, ?_, ?_, ?_⟩
    · unfold mainActions
      simp [List.append_assoc]
    · rw [List.all_append]
      cases a.hasIc <;> cases a.hasDc <;> cases a.hasL2 <;> simp [isWire]
    · rw [List.all_append, Bool.and_eq_true]
      refine ⟨?_, by simp [isWire]⟩
      rw [List.all_eq_true]
      intro x hx
      obtain ⟨i, t, rfl⟩ := mem_hartRegs_flatten a _ x hx
      rfl
    · exact List.getLast?_concat _

theorem runSimModel_no_regs (acts : List AsmAction)
    (hregs : ∀ h, registeredTracers acts h = []) :
    ∀ (tr : List (Nat × MemTraceEvent)) (s : SimState), runSimModel acts s tr = s := by
  intro tr
  induction tr with
  | nil =>
    intro s
    rfl
  | cons he tr ih =>
    intro s
    show runSimModel acts (simStep acts s he) tr = s
    rw [show simStep acts s he = s from by unfold simStep; rw [hregs he.1]; rfl]
    exact ih s

/-- C10: when `--l2` is given but neither `--ic` nor `--dc`, `main` performs
no `set_miss_handler` wiring at all and registers no tracer with any hart, so
over the whole simulated run no access reaches the L2 object and its state —
lines and counters alike — is exactly its initial state. -/
theorem unwired_l2_untouched (a : SpikeArgs) (s : SimState)
    (tr : List (Nat × MemTraceEvent))
    (hic : a.hasIc = false) (hdc : a.hasDc = false) (hl2 : a.hasL2 = true) :
    (runSimModel (mainActions a) s tr).l2 = s.l2
    ∧ (∀ S W B : Nat, s.l2 = freshInstance S W B →
        (runSimModel (mainActions a) s tr).l2 = freshInstance S W B)
    ∧ (∀ h, registeredTracers (mainActions a) h = [])
    ∧ (mainActions a).countP isWire = 0 := by
  have hbase : hartBase a = [] := by
    unfold hartBase
    simp [hic, hdc]
  have hregs : ∀ h, registeredTracers (mainActions a) h = [] := by
    intro h
    rw [registeredTracers_main, hbase]
    simp
  have hrun : runSimModel (mainActions a) s tr = s :=
    runSimModel_no_regs (mainActions a) hregs tr s
  refine ⟨by rw [hrun], ?_, hregs, ?_⟩
  · intro S W B hfresh
    rw [hrun]
    exact hfresh
  · unfold mainActions
    simp only [List.countP_append]
    rw [countP_hartRegs_flatten a _ _ (fun i t => rfl)]
    simp [hic, hdc, isWire]

/-- C10 witness: one hart, only `--l2` configured, a one-event trace; the L2
state after the run equals its fresh initial state. -/
theorem unwired_l2_untouched_witness :
    (⟨false, false, true, 1⟩ : SpikeArgs).hasIc = false
    ∧ (⟨false, false, true, 1⟩ : SpikeArgs).hasDc = false
    ∧ (⟨false, false, true, 1⟩ : SpikeArgs).hasL2 = true
    ∧ (runSimModel (mainActions ⟨false, false, true, 1⟩)
        ⟨freshInstance 1 1 32, freshInstance 1 1 32, freshInstance 4 2 64⟩
        [(0, ⟨0, 4, AccessKind.load⟩)]).l2
      = (⟨freshInstance 1 1 32, freshInstance 1 1 32,
          freshInstance 4 2 64⟩ : SimState).l2 :=
  ⟨rfl, rfl, rfl,
    (unwired_l2_untouched ⟨false, false, true, 1⟩
      ⟨freshInstance 1 1 32, freshInstance 1 1 32, freshInstance 4 2 64⟩
      [(0, ⟨0, 4, AccessKind.load⟩)] rfl rfl rfl).1⟩
